import Mathlib

/-!
Verification development for the cooklang-go recipe parser (`parser.go`).

Go strings are modelled as `List Char`.  The Go tokenizer iterates lines with
`for index, ch := range line`, which yields byte offsets at rune boundaries;
every offset the code stores or compares (`skipIndex`, `findNodeEndIndex`,
`strings.Index` results) is a rune boundary, so replacing byte offsets by
character offsets is an order-isomorphic, hence faithful, change of
representation.  `float64` quantities are modelled as exact rationals (`Rat`):
every arithmetic operation the code performs is a parse of a decimal literal or
a division of two machine integers, and no theorem below depends on rounding.
Division by a zero denominator (which in Go yields `+Inf`) is not modelled
faithfully (`Rat` division by zero is `0`); every theorem touching fractions
carries a nonzero-denominator hypothesis.
-/

namespace Cooklang

/-- Go strings, modelled as lists of unicode code points. -/
abbrev Str := List Char

/-- Coerce a Lean string literal to the model's string type. -/
def str (s : String) : Str := s.data

/-- Model of Go `unicode.IsSpace`: the Unicode White_Space property. -/
def goIsSpace (c : Char) : Bool :=
  ('\u0009' ≤ c && c ≤ '\u000D') || c = ' ' || c = '\u0085' || c = '\u00A0' ||
  c = '\u1680' || ('\u2000' ≤ c && c ≤ '\u200A') || c = '\u2028' ||
  c = '\u2029' || c = '\u202F' || c = '\u205F' || c = '\u3000'

/-- Model of Go `strings.TrimSpace`: drop unicode whitespace from both ends. -/
def goTrimSpace (s : Str) : Str :=
  ((s.dropWhile goIsSpace).reverse.dropWhile goIsSpace).reverse

/-- Model of Go `strings.TrimRight(line, " ")`: drop ASCII spaces (only) from
the right end. -/
def goTrimRightSpaces (s : Str) : Str :=
  (s.reverse.dropWhile (fun c => c = ' ')).reverse

/-- Model of `peek` (parser.go): the first rune of a string, or
`utf8.RuneError` (U+FFFD) when the string is empty. -/
def peek (s : Str) : Char :=
  match s with
  | [] => '\uFFFD'
  | c :: _ => c

/-- Model of Go `strings.Index(s, sep)` for a one-character separator,
generalised to a predicate; returns the first index satisfying `p`. -/
def goIndexOfAux (p : Char → Bool) : Str → Nat → Option Nat
  | [], _ => none
  | c :: rest, i => if p c then some i else goIndexOfAux p rest (i + 1)

/-- First index of a character satisfying `p`, or `none` (Go's `-1`). -/
def goIndexOf (p : Char → Bool) (s : Str) : Option Nat :=
  goIndexOfAux p s 0

/-- Split a string on newline characters, keeping empty pieces. -/
def splitNL : Str → List Str
  | [] => [[]]
  | '\n' :: rest => [] :: splitNL rest
  | c :: rest =>
    match splitNL rest with
    | [] => [[c]]
    | l :: ls => (c :: l) :: ls

/-- Whether the string contains two adjacent dash characters (the comment
opener `--`). -/
def hasDoubleDash : Str → Bool
  | [] => false
  | [_] => false
  | a :: b :: rest => (a = '-' && b = '-') || hasDoubleDash (b :: rest)

/-- Model of the carriage-return stripping done by `bufio.ScanLines`. -/
def dropCR (l : Str) : Str :=
  if l.getLast? = some '\r' then l.dropLast else l

/-- Model of line splitting by `bufio.Scanner` with `bufio.ScanLines`: split on
newlines, drop a final empty piece produced by a trailing newline, and strip a
trailing carriage return from each line. -/
def goScanLines (s : Str) : List Str :=
  if s = [] then []
  else
    let ps := splitNL s
    let ps := if ps.getLast? = some [] then ps.dropLast else ps
    ps.map dropCR

/-- Numeric value of a list of ASCII digits. -/
def natOfDigits (ds : Str) : Nat :=
  ds.foldl (fun a c => a * 10 + (c.toNat - '0'.toNat)) 0

/-- Model of Go `strconv.Atoi` (i.e. `ParseInt(s, 10, 64)`): an optional sign
followed by at least one ASCII digit, with the value bounded by the `int64`
range; leading zeros are accepted.  `none` models a non-nil error. -/
def goAtoi (s : Str) : Option Int :=
  let core : Bool → Str → Option Int := fun neg ds =>
    if ds = [] then none
    else if ds.all Char.isDigit then
      let n := natOfDigits ds
      if neg then
        if n ≤ 2 ^ 63 then some (-(n : Int)) else none
      else
        if n ≤ 2 ^ 63 - 1 then some (n : Int) else none
    else none
  match s with
  | '+' :: rest => core false rest
  | '-' :: rest => core true rest
  | rest => core false rest

/-- Model of Go `strconv.ParseFloat` restricted to plain decimal syntax:
optional sign, a mantissa made of digits with at most one point (at least one
digit overall), and an optional decimal exponent.  The value is kept as an
exact rational.  Go's `Inf`/`NaN` words, hex floats and underscore separators
are not modelled; no theorem below depends on such inputs. -/
def goParseFloat (s : Str) : Option Rat :=
  let p : Bool × Str :=
    match s with
    | '+' :: rest => (false, rest)
    | '-' :: rest => (true, rest)
    | rest => (false, rest)
  let neg := p.1
  let body := p.2
  let mantExp : Option (Str × Int) :=
    match goIndexOf (fun c => c = 'e' || c = 'E') body with
    | none => some (body, 0)
    | some i =>
      match body.drop (i + 1) with
      | '+' :: ds =>
        if ds ≠ [] ∧ ds.all Char.isDigit then some (body.take i, (natOfDigits ds : Int)) else none
      | '-' :: ds =>
        if ds ≠ [] ∧ ds.all Char.isDigit then some (body.take i, -(natOfDigits ds : Int)) else none
      | ds =>
        if ds ≠ [] ∧ ds.all Char.isDigit then some (body.take i, (natOfDigits ds : Int)) else none
  mantExp.bind fun me =>
    let mant := me.1
    let e := me.2
    let digitsFrac : Option (Nat × Nat) :=
      match goIndexOf (fun c => c = '.') mant with
      | none => if mant ≠ [] ∧ mant.all Char.isDigit then some (natOfDigits mant, 0) else none
      | some i =>
        let intPart := mant.take i
        let fracPart := mant.drop (i + 1)
        if (intPart ++ fracPart) ≠ [] ∧ (intPart ++ fracPart).all Char.isDigit ∧
            goIndexOf (fun c => c = '.') fracPart = none then
          some (natOfDigits (intPart ++ fracPart), fracPart.length)
        else none
    digitsFrac.bind fun df =>
      let num : Int := (if neg then -1 else 1) * (df.1 : Int)
      some (if 0 ≤ e then Rat.divInt (num * (10 : Int) ^ e.toNat) ((10 : Int) ^ df.2)
            else Rat.divInt num ((10 : Int) ^ (df.2 + (-e).toNat)))

/-- Result of `getFloat` (parser.go): the `isNumeric` flag, the parsed value,
and whether the returned Go error was non-nil. -/
structure FloatRes where
  isNumeric : Bool
  value : Rat
  hasErr : Bool
deriving DecidableEq, Repr

/-- Model of `getFloat` (parser.go): trim the text; empty text is non-numeric
with a nil error; text with a `/` is parsed as a fraction via `Atoi` on both
trimmed operands (an `Atoi` failure is a non-nil error); otherwise the text is
parsed by `ParseFloat` (a failure is a non-nil error). -/
def getFloat (s : Str) : FloatRes :=
  let trimmedValue := goTrimSpace s
  if trimmedValue = [] then ⟨false, 0, false⟩
  else
    match goIndexOf (fun c => c = '/') trimmedValue with
    | none =>
      match goParseFloat trimmedValue with
      | some v => ⟨true, v, false⟩
      | none => ⟨false, 0, true⟩
    | some i =>
      match goAtoi (goTrimSpace (trimmedValue.take i)) with
      | none => ⟨false, 0, true⟩
      | some a =>
        match goAtoi (goTrimSpace (trimmedValue.drop (i + 1))) with
        | none => ⟨false, 0, true⟩
        | some b => ⟨true, Rat.divInt a b, false⟩

/-- Model of `IngredientAmount` (parser.go). -/
structure IngredientAmount where
  isNumeric : Bool
  quantity : Rat
  quantityRaw : Str
  unit : Str
deriving DecidableEq, Repr

/-- Model of `Ingredient` (parser.go). -/
structure Ingredient where
  name : Str
  amount : IngredientAmount
deriving DecidableEq, Repr

/-- Model of `Cookware` (parser.go). -/
structure Cookware where
  isNumeric : Bool
  name : Str
  quantity : Rat
  quantityRaw : Str
deriving DecidableEq, Repr

/-- Model of `Timer` (parser.go). -/
structure Timer where
  name : Str
  duration : Rat
  unit : Str
deriving DecidableEq, Repr

/-- Outcome of a fallible operation: a value, a non-nil Go error, or a Go
runtime panic (the slice-bounds panics reachable in the entity scanners). -/
inductive Out (α : Type) where
  | ok (a : α)
  | err
  | crash
deriving DecidableEq, Repr

/-- Model of `getAmount` (parser.go).  The Go function ignores the error
returned by `getFloat` and therefore never returns a non-nil error itself:
a non-numeric quantity text degrades to the raw text with the kind-specific
default value. -/
def getAmount (s : Str) (defaultValue : Rat) : IngredientAmount :=
  if s = [] then ⟨false, defaultValue, [], []⟩
  else
    match goIndexOf (fun c => c = '%') s with
    | none =>
      let r := getFloat s
      ⟨r.isNumeric, if r.isNumeric then r.value else defaultValue, goTrimSpace s, []⟩
    | some i =>
      let r := getFloat (s.take i)
      ⟨r.isNumeric, if r.isNumeric then r.value else defaultValue,
        goTrimSpace (s.take i), goTrimSpace (s.drop (i + 1))⟩

/-- Model of `getIngredientFromRawString` (parser.go).  With no `{` the whole
raw string is the name and the amount defaults to quantity 1.  With a `{` at
index `i` the Go code slices `s[i+1 : len(s)-1]`, which panics when the first
`{` is the last character of `s`. -/
def getIngredientFromRawString (s : Str) : Out Ingredient :=
  match goIndexOf (fun c => c = '\x7b') s with
  | none => Out.ok ⟨s, ⟨false, 1, [], []⟩⟩
  | some i =>
    if i + 1 = s.length then Out.crash
    else Out.ok ⟨s.take i, getAmount ((s.drop (i + 1)).dropLast) 0⟩

/-- Model of `getCookwareFromRawString` (parser.go); like the ingredient form
but with default quantity 1 for the braced body, and only the quantity fields
of the resolved amount are kept. -/
def getCookwareFromRawString (s : Str) : Out Cookware :=
  match goIndexOf (fun c => c = '\x7b') s with
  | none => Out.ok ⟨false, s, 1, []⟩
  | some i =>
    if i + 1 = s.length then Out.crash
    else
      let amount := getAmount ((s.drop (i + 1)).dropLast) 1
      Out.ok ⟨amount.isNumeric, s.take i, amount.quantity, amount.quantityRaw⟩

/-- Model of `getTimerFromRawString` (parser.go).  A `{` splits off the name;
without a `%` the remainder becomes the timer name with duration 0; with a `%`
the quantity text goes through `getFloat`, and a non-nil `getFloat` error is
returned as an error (this is the only entity scanner that propagates a
quantity parse failure).  The unit slice `s[j+1 : len(s)-1]` panics when the
`%` is the last character. -/
def getTimerFromRawString (s : Str) : Out Timer :=
  let p : Str × Str :=
    match goIndexOf (fun c => c = '\x7b') s with
    | some i => (goTrimSpace (s.take i), s.drop (i + 1))
    | none => ([], s)
  let name := p.1
  let s' := p.2
  match goIndexOf (fun c => c = '%') s' with
  | none => Out.ok ⟨s', 0, []⟩
  | some j =>
    let r := getFloat (s'.take j)
    if r.hasErr then Out.err
    else if j + 1 = s'.length then Out.crash
    else if r.isNumeric then Out.ok ⟨name, r.value, (s'.drop (j + 1)).dropLast⟩
    else Out.ok ⟨name, 0, (s'.drop (j + 1)).dropLast⟩

/-- Characters that abort the search for a closing brace in
`findNodeEndIndex` (parser.go): another entity marker or a block-comment
opener. -/
def isNodeBreakChar (c : Char) : Bool :=
  c = '#' || c = '@' || c = '~' || c = '['

/-- The loop of `findNodeEndIndex` (parser.go), scanning from index 1: the
first break character yields `none` (Go's `endIndex == -1`), the first `}`
yields its index plus one. -/
def findNodeEndIndexAux : Str → Nat → Option Nat
  | [], _ => none
  | c :: rest, i =>
    if isNodeBreakChar c then none
    else if c = '\x7d' then some (i + 1)
    else findNodeEndIndexAux rest (i + 1)

/-- Model of `findNodeEndIndex` (parser.go): the end of the span consumed by
an entity beginning at the head of `line`.  If no closing `}` is found before
a break character, the span ends at the first ASCII space, or at the end of
the line. -/
def findNodeEndIndex (line : Str) : Nat :=
  let endIndex : Option Nat :=
    match line with
    | [] => none
    | _ :: rest => findNodeEndIndexAux rest 1
  match endIndex with
  | some e => e
  | none =>
    match goIndexOf (fun c => c = ' ') line with
    | some i => i
    | none => line.length

/-- Model of `getIngredient` (parser.go): resolve the consumed span and parse
the raw string between the marker and the end of the span. -/
def getIngredient (line : Str) : Out Ingredient × Nat :=
  (getIngredientFromRawString ((line.drop 1).take (findNodeEndIndex line - 1)),
   findNodeEndIndex line)

/-- Model of `getCookware` (parser.go). -/
def getCookware (line : Str) : Out Cookware × Nat :=
  (getCookwareFromRawString ((line.drop 1).take (findNodeEndIndex line - 1)),
   findNodeEndIndex line)

/-- Model of `getTimer` (parser.go). -/
def getTimer (line : Str) : Out Timer × Nat :=
  (getTimerFromRawString ((line.drop 1).take (findNodeEndIndex line - 1)),
   findNodeEndIndex line)

/-- First index at which the two-character close sequence of a block comment
occurs (Go `strings.Index(s, "-]")`). -/
def findDashClose : Str → Nat → Option Nat
  | '-' :: '\x5d' :: _, i => some i
  | _ :: rest, i => findDashClose rest (i + 1)
  | [], _ => none

/-- Model of `getBlockComment` (parser.go): content up to the first `-]`; a
missing close sequence is a (fatal) error.  The Go slice `s[2:index]` panics
when the close sequence starts before index 2 (a line containing the three
characters open-dash-close back to back). -/
def getBlockComment (s : Str) : Out (Str × Nat) :=
  match findDashClose s 0 with
  | none => Out.err
  | some idx =>
    if idx < 2 then Out.crash
    else Out.ok (goTrimSpace ((s.drop 2).take (idx - 2)), idx + 2)

/-- Comment kinds (parser.go `CommentType`). -/
inductive CommentType where
  | line
  | block
  | endLine
deriving DecidableEq, Repr

/-- The items emitted by the line tokenizer to its callback (parser.go
`parseStepCB`): plain text runs, entities and comments. -/
inductive Item where
  | text (value : Str)
  | ingredient (i : Ingredient)
  | cookware (c : Cookware)
  | timer (t : Timer)
  | comment (type : CommentType) (value : Str)
deriving DecidableEq, Repr

/-- Whether an item is an Ingredient entity. -/
def isIngredientItem : Item → Bool
  | Item.ingredient _ => true
  | _ => false

/-- Terminal status of one line scan. -/
inductive ScanStatus where
  | ok
  | fail
  | crash
deriving DecidableEq, Repr

/-- The flush of the pending plain-text buffer performed before every entity
or comment and at the end of the line: a nonempty buffer becomes one Text
item. -/
def flushBuffer (buffer : Str) : List Item :=
  if buffer = [] then [] else [Item.text buffer]

/-- The scan loop of `parseStepCB` (parser.go), in fuel-indexed form.  The
fuel only bounds the recursion; `scanStep` supplies fuel equal to the line
length, and since every step consumes at least one character the fuel never
runs out before the line does, so the fuel-exhaustion branch is unreachable
from `scanStep`.  Each branch mirrors one `if` of the Go loop: an entity
marker not followed by an ASCII space flushes the buffer and delegates to the
matching scanner, consuming the span `findNodeEndIndex` determined; `[-`
opens a block comment; `--` ends the scan as an end-of-line comment; any
other character joins the buffer. -/
def scanFuel : Nat → Str → Str → List Item × ScanStatus
  | _, buffer, [] => (flushBuffer buffer, ScanStatus.ok)
  | 0, buffer, _ :: _ => (flushBuffer buffer, ScanStatus.ok)
  | fuel + 1, buffer, c :: rest =>
    if c = '@' ∧ peek rest ≠ ' ' then
      match (getIngredient (c :: rest)).1 with
      | Out.ok ing =>
        let r := scanFuel fuel [] ((c :: rest).drop (getIngredient (c :: rest)).2)
        (flushBuffer buffer ++ Item.ingredient ing :: r.1, r.2)
      | Out.err => (flushBuffer buffer, ScanStatus.fail)
      | Out.crash => (flushBuffer buffer, ScanStatus.crash)
    else if c = '#' ∧ peek rest ≠ ' ' then
      match (getCookware (c :: rest)).1 with
      | Out.ok cw =>
        let r := scanFuel fuel [] ((c :: rest).drop (getCookware (c :: rest)).2)
        (flushBuffer buffer ++ Item.cookware cw :: r.1, r.2)
      | Out.err => (flushBuffer buffer, ScanStatus.fail)
      | Out.crash => (flushBuffer buffer, ScanStatus.crash)
    else if c = '~' ∧ peek rest ≠ ' ' then
      match (getTimer (c :: rest)).1 with
      | Out.ok t =>
        let r := scanFuel fuel [] ((c :: rest).drop (getTimer (c :: rest)).2)
        (flushBuffer buffer ++ Item.timer t :: r.1, r.2)
      | Out.err => (flushBuffer buffer, ScanStatus.fail)
      | Out.crash => (flushBuffer buffer, ScanStatus.crash)
    else if c = '[' ∧ peek rest = '-' then
      match getBlockComment (c :: rest) with
      | Out.ok bc =>
        let r := scanFuel fuel [] ((c :: rest).drop bc.2)
        (flushBuffer buffer ++ Item.comment CommentType.block bc.1 :: r.1, r.2)
      | Out.err => (flushBuffer buffer, ScanStatus.fail)
      | Out.crash => (flushBuffer buffer, ScanStatus.crash)
    else if c = '-' ∧ peek rest = '-' then
      (flushBuffer buffer ++ [Item.comment CommentType.endLine (goTrimSpace (rest.drop 1))],
       ScanStatus.ok)
    else scanFuel fuel (buffer ++ [c]) rest

/-- Model of `parseStepCB` (parser.go), restricted to the item trace: the
ordered list of items handed to the callback, plus the terminal status of the
scan. -/
def scanStep (line : Str) : List Item × ScanStatus :=
  scanFuel line.length [] line

/-- Model of `ItemType` (parser.go): the five emitted item kinds.  In Go this
is a string type; only the five declared constants are ever compared, so an
enumeration is a faithful model. -/
inductive ItemType where
  | text
  | comment
  | cookware
  | ingredient
  | timer
deriving DecidableEq, Repr

/-- Model of `ParseV2Config` (parser.go). -/
structure ParseV2Config where
  ignoreTypes : List ItemType
deriving DecidableEq, Repr

/-- Model of `IngredientV2` (parser.go): the surfaced ingredient shape. -/
structure IngredientV2 where
  name : Str
  quantity : Rat
  units : Str
deriving DecidableEq, Repr

/-- Model of `CookwareV2` (parser.go): only name and quantity are surfaced. -/
structure CookwareV2 where
  name : Str
  quantity : Rat
deriving DecidableEq, Repr

/-- Model of `TimerV2` (parser.go). -/
structure TimerV2 where
  name : Str
  quantity : Rat
  unit : Str
deriving DecidableEq, Repr

/-- Model of `Ingredient.asIngredientV2` (parser.go). -/
def asIngredientV2 (i : Ingredient) : IngredientV2 :=
  ⟨i.name, i.amount.quantity, i.amount.unit⟩

/-- Model of `Cookware.asCookwareV2` (parser.go). -/
def asCookwareV2 (c : Cookware) : CookwareV2 :=
  ⟨c.name, c.quantity⟩

/-- Model of `Timer.asTimerV2` (parser.go). -/
def asTimerV2 (t : Timer) : TimerV2 :=
  ⟨t.name, t.duration, t.unit⟩

/-- The members of a `StepV2` (parser.go stores them as `any`; the possible
dynamic types are exactly these five). -/
inductive ItemV2 where
  | ingredient (v : IngredientV2)
  | cookware (v : CookwareV2)
  | timer (v : TimerV2)
  | text (value : Str)
  | comment (type : CommentType) (value : Str)
deriving DecidableEq, Repr

/-- Model of `StepV2` (parser.go). -/
abbrev StepV2 := List ItemV2

/-- The per-item body of the `ParserV2.parseRecipeLine` callback (parser.go):
convert the item, unless its kind is listed in `IgnoreTypes`. -/
def itemToV2 (cfg : ParseV2Config) (it : Item) : Option ItemV2 :=
  match it with
  | Item.timer t =>
    if ItemType.timer ∈ cfg.ignoreTypes then none else some (ItemV2.timer (asTimerV2 t))
  | Item.ingredient i =>
    if ItemType.ingredient ∈ cfg.ignoreTypes then none
    else some (ItemV2.ingredient (asIngredientV2 i))
  | Item.cookware c =>
    if ItemType.cookware ∈ cfg.ignoreTypes then none
    else some (ItemV2.cookware (asCookwareV2 c))
  | Item.text v =>
    if ItemType.text ∈ cfg.ignoreTypes then none else some (ItemV2.text v)
  | Item.comment ty v =>
    if ItemType.comment ∈ cfg.ignoreTypes then none else some (ItemV2.comment ty v)

/-- Outcome of a V2 parse: a value, a non-nil error, a slice-bounds panic
inherited from the scanners, or the nil-pointer panic raised when the parser
was built with a nil configuration and an item-exclusion test is reached. -/
inductive POut (α : Type) where
  | ok (a : α)
  | err
  | crash
  | nilDeref
deriving DecidableEq, Repr

/-- Model of `ParserV2.parseRecipeLine` (parser.go).  The configuration is
`none` for a parser built as `NewParserV2(nil)`: the first item handed to the
callback then dereferences the nil configuration (`slices.Contains(p.config.
IgnoreTypes, ...)`) and panics, which precedes any later scanner failure;
when the scan fails before emitting any item, that failure is returned
unchanged. -/
def parseRecipeLineV2 (config : Option ParseV2Config) (line : Str) : POut StepV2 :=
  let r := scanStep line
  match config with
  | none =>
    if r.1 = [] then
      match r.2 with
      | ScanStatus.ok => POut.ok []
      | ScanStatus.fail => POut.err
      | ScanStatus.crash => POut.crash
    else POut.nilDeref
  | some cfg =>
    match r.2 with
    | ScanStatus.ok => POut.ok (r.1.filterMap (itemToV2 cfg))
    | ScanStatus.fail => POut.err
    | ScanStatus.crash => POut.crash

/-- Model of `parseMetadata` (parser.go): strip the `>>` prefix, trim, and
split at the first `:`; a missing separator or an empty key (`index < 1`) is
an error. -/
def parseMetadata (line : Str) : Option (Str × Str) :=
  let metadataLine := goTrimSpace (line.drop 2)
  match goIndexOf (fun c => c = ':') metadataLine with
  | none => none
  | some i =>
    if i < 1 then none
    else some (goTrimSpace (metadataLine.take i), goTrimSpace (metadataLine.drop (i + 1)))

/-- Metadata, modelled as an association list with overwrite-on-insert
(standing in for the Go `map[string]any`; insertion order is irrelevant to
every theorem below, which only compares runs of the same parser). -/
abbrev MetadataMap := List (Str × Str)

/-- Insert a key/value pair, overwriting an existing binding of the key. -/
def upsert (m : MetadataMap) (k v : Str) : MetadataMap :=
  match m with
  | [] => [(k, v)]
  | (k', v') :: rest => if k' = k then (k, v) :: rest else (k', v') :: upsert rest k v

/-- Model of `RecipeV2` (parser.go). -/
structure RecipeV2 where
  steps : List StepV2
  metadata : MetadataMap
deriving DecidableEq, Repr

/-- Modelled from the spec: the YAML front-matter decoder.  The decoder is
`gopkg.in/yaml.v3` (external to this repository, not under src/); following
spec §4.4–§4.5 ("decode the accumulated buffer as a structured key/value
block … Decode failure is fatal") it is modelled as plain `key: value` line
decoding: every non-blank line must contain a `:`; an empty buffer (no
non-blank line) is a decode error, matching the `io.EOF` the Go decoder
returns for an empty document. -/
def decodeFrontMatter (buffer : Str) : Option MetadataMap :=
  let ls := (splitNL buffer).filter (fun l => ¬ goTrimSpace l = [])
  if ls = [] then none
  else
    ls.foldl
      (fun acc l =>
        acc.bind fun m =>
          match goIndexOf (fun c => c = ':') l with
          | none => none
          | some i => some (upsert m (goTrimSpace (l.take i)) (goTrimSpace (l.drop (i + 1)))))
      (some [])

/-- Model of the mutable fields of `ParserV2` (parser.go): the front-matter
flag and buffer.  `NewParserV2` leaves them at their zero values, and no code
path ever resets `frontMatter`. -/
structure ParserV2State where
  inFrontMatter : Bool
  frontMatter : Str
deriving DecidableEq, Repr

/-- The state of a freshly constructed parser (`NewParserV2`). -/
def initParserV2 : ParserV2State := ⟨false, []⟩

/-- Model of `ParserV2.parseLine` (parser.go): trim trailing ASCII spaces,
then classify the line — front-matter delimiter (entering or leaving, the
latter decoding the accumulated buffer), front-matter body, comment line,
metadata line, or direction line.  The returned state carries the mutations
performed before any error (leaving front matter clears the flag even when
decoding fails, and the buffer is never cleared). -/
def parseLineV2 (config : Option ParseV2Config) (st : ParserV2State) (recipe : RecipeV2)
    (line0 : Str) : POut RecipeV2 × ParserV2State :=
  let line := goTrimRightSpaces line0
  if line = str "---" ∧ st.inFrontMatter = false then
    (POut.ok recipe, ⟨true, st.frontMatter⟩)
  else if line = str "---" ∧ st.inFrontMatter = true then
    match decodeFrontMatter st.frontMatter with
    | none => (POut.err, ⟨false, st.frontMatter⟩)
    | some entries =>
      (POut.ok ⟨recipe.steps, entries.foldl (fun m kv => upsert m kv.1 kv.2) recipe.metadata⟩,
       ⟨false, st.frontMatter⟩)
  else if st.inFrontMatter then
    (POut.ok recipe, ⟨true, st.frontMatter ++ line ++ ['\n']⟩)
  else if line.take 2 = str "--" then
    match config with
    | none => (POut.nilDeref, st)
    | some cfg =>
      if ItemType.comment ∈ cfg.ignoreTypes then (POut.ok recipe, st)
      else
        (POut.ok ⟨recipe.steps ++ [[ItemV2.comment CommentType.line (goTrimSpace (line.drop 2))]],
                  recipe.metadata⟩,
         st)
  else if line.take 2 = str ">>" then
    match parseMetadata line with
    | none => (POut.err, st)
    | some kv => (POut.ok ⟨recipe.steps, upsert recipe.metadata kv.1 kv.2⟩, st)
  else
    match parseRecipeLineV2 config line with
    | POut.ok step => (POut.ok ⟨recipe.steps ++ [step], recipe.metadata⟩, st)
    | POut.err => (POut.err, st)
    | POut.crash => (POut.crash, st)
    | POut.nilDeref => (POut.nilDeref, st)

/-- The line loop of `ParserV2.ParseStream` (parser.go): feed every line whose
`TrimSpace` is non-empty to `parseLine`, stopping at the first error. -/
def parseLinesV2 (config : Option ParseV2Config) :
    ParserV2State → RecipeV2 → List Str → POut RecipeV2 × ParserV2State
  | st, recipe, [] => (POut.ok recipe, st)
  | st, recipe, l :: ls =>
    if goTrimSpace l = [] then parseLinesV2 config st recipe ls
    else
      match parseLineV2 config st recipe l with
      | (POut.ok recipe', st') => parseLinesV2 config st' recipe' ls
      | (POut.err, st') => (POut.err, st')
      | (POut.crash, st') => (POut.crash, st')
      | (POut.nilDeref, st') => (POut.nilDeref, st')

/-- Model of `ParserV2.ParseString` (parser.go): an empty input string is an
error; otherwise split into lines and run the line loop on a fresh empty
document.  The final parser state is returned alongside the result, since the
Go parser keeps it in the `ParserV2` struct across calls. -/
def parseStringV2 (config : Option ParseV2Config) (st : ParserV2State) (s : Str) :
    POut RecipeV2 × ParserV2State :=
  if s = [] then (POut.err, st)
  else parseLinesV2 config st ⟨[], []⟩ (goScanLines s)

/-! ### Helper lemmas about the string primitives -/

theorem goIndexOfAux_eq_none {p : Char → Bool} :
    ∀ (s : Str) (i : Nat), (∀ x ∈ s, p x = false) → goIndexOfAux p s i = none
  | [], _, _ => rfl
  | c :: rest, i, h => by
    have hc : p c = false := h c (List.mem_cons_self c rest)
    simp only [goIndexOfAux, hc, Bool.false_eq_true, if_false]
    exact goIndexOfAux_eq_none rest (i + 1) fun x hx => h x (List.mem_cons_of_mem c hx)

theorem goIndexOf_eq_none {p : Char → Bool} (s : Str) (h : ∀ x ∈ s, p x = false) :
    goIndexOf p s = none :=
  goIndexOfAux_eq_none s 0 h

theorem goIndexOfAux_append_hit {p : Char → Bool} :
    ∀ (w r : Str) (i : Nat) (c : Char), (∀ x ∈ w, p x = false) → p c = true →
      goIndexOfAux p (w ++ c :: r) i = some (i + w.length)
  | [], r, i, c, _, hc => by simp [goIndexOfAux, hc]
  | a :: w, r, i, c, h, hc => by
    have ha : p a = false := h a (List.mem_cons_self a w)
    simp only [List.cons_append, goIndexOfAux, ha, Bool.false_eq_true, if_false]
    have hrec := goIndexOfAux_append_hit w r (i + 1) c
      (fun x hx => h x (List.mem_cons_of_mem a hx)) hc
    have hrec' : goIndexOfAux p (w.append (c :: r)) (i + 1) = some (i + 1 + w.length) := hrec
    rw [hrec', List.length_cons]
    congr 1
    omega

theorem findNodeEndIndexAux_eq_none :
    ∀ (s : Str) (i : Nat), (∀ x ∈ s, isNodeBreakChar x = false ∧ x ≠ '\x7d') →
      findNodeEndIndexAux s i = none
  | [], _, _ => rfl
  | c :: rest, i, h => by
    have hc := h c (List.mem_cons_self c rest)
    simp only [findNodeEndIndexAux, hc.1, Bool.false_eq_true, if_false, hc.2, if_neg hc.2]
    exact findNodeEndIndexAux_eq_none rest (i + 1) fun x hx => h x (List.mem_cons_of_mem c hx)

theorem hasDoubleDash_append : ∀ (l t : Str), hasDoubleDash l = true → hasDoubleDash (l ++ t) = true
  | [], _, h => by simp [hasDoubleDash] at h
  | [_], _, h => by simp [hasDoubleDash] at h
  | a :: b :: l, t, h => by
    simp only [hasDoubleDash, Bool.or_eq_true] at h
    rcases h with h | h
    · simp [hasDoubleDash, h]
    · have := hasDoubleDash_append (b :: l) t h
      simp only [List.cons_append] at this ⊢
      simp [hasDoubleDash, this]

theorem hasDoubleDash_tail (a : Char) (l : Str) (h : hasDoubleDash (a :: l) = false) :
    hasDoubleDash l = false := by
  cases l with
  | nil => rfl
  | cons b r =>
    simp only [hasDoubleDash, Bool.or_eq_false_iff] at h
    exact h.2

theorem hasDoubleDash_of_take2 (l : Str) (h : l.take 2 = str "--") : hasDoubleDash l = true := by
  cases l with
  | nil => simp [str] at h
  | cons a l' =>
    cases l' with
    | nil => simp [str] at h
    | cons b r =>
      simp only [List.take, str] at h
      have ha : a = '-' := by
        have := congrArg (fun x => x.head?) h
        simpa using this
      have hb : b = '-' := by
        have := congrArg (fun x => x.tail.head?) h
        simpa using this
      subst ha hb
      simp [hasDoubleDash]

theorem goTrimRightSpaces_decomp (s : Str) :
    s = goTrimRightSpaces s ++ (s.reverse.takeWhile (fun c => c = ' ')).reverse := by
  unfold goTrimRightSpaces
  conv_lhs => rw [← s.reverse_reverse]
  rw [← List.reverse_append]
  congr 1
  exact (List.takeWhile_append_dropWhile ..).symm

theorem mem_goTrimRightSpaces {x : Char} {s : Str} (h : x ∈ goTrimRightSpaces s) : x ∈ s := by
  rw [goTrimRightSpaces_decomp s]
  exact List.mem_append_left _ h

theorem hasDoubleDash_goTrimRightSpaces (s : Str) (h : hasDoubleDash s = false) :
    hasDoubleDash (goTrimRightSpaces s) = false := by
  by_contra hx
  have hx' : hasDoubleDash (goTrimRightSpaces s) = true := by
    cases hdd : hasDoubleDash (goTrimRightSpaces s) with
    | false => exact absurd hdd hx
    | true => rfl
  have := hasDoubleDash_append (goTrimRightSpaces s)
    ((s.reverse.takeWhile (fun c => c = ' ')).reverse) hx'
  rw [← goTrimRightSpaces_decomp s] at this
  rw [this] at h
  cases h

theorem goTrimRightSpaces_ne_nil {s : Str} (h : goTrimSpace s ≠ []) : goTrimRightSpaces s ≠ [] := by
  intro hnil
  apply h
  have hall : ∀ x ∈ s.reverse, x = ' ' := by
    have : s.reverse.dropWhile (fun c => c = ' ') = [] := by
      have := congrArg List.reverse hnil
      simpa [goTrimRightSpaces] using this
    intro x hx
    have := List.dropWhile_eq_nil_iff.mp this x hx
    simpa using this
  have hall' : ∀ x ∈ s, goIsSpace x = true := by
    intro x hx
    have : x = ' ' := hall x (by simpa using hx)
    subst this
    decide
  have h1 : s.dropWhile goIsSpace = [] := List.dropWhile_eq_nil_iff.mpr hall'
  simp [goTrimSpace, h1]

/-! ### Helper lemmas about the entity scanners and the line scan -/

theorem getIngredientFromRawString_no_brace {s : Str} (h : '\x7b' ∉ s) :
    getIngredientFromRawString s = Out.ok ⟨s, ⟨false, 1, [], []⟩⟩ := by
  unfold getIngredientFromRawString
  rw [goIndexOf_eq_none s (fun x hx => by
    by_cases hb : x = '\x7b'
    · exact absurd (hb ▸ hx) h
    · simpa using hb)]

theorem getCookwareFromRawString_no_brace {s : Str} (h : '\x7b' ∉ s) :
    getCookwareFromRawString s = Out.ok ⟨false, s, 1, []⟩ := by
  unfold getCookwareFromRawString
  rw [goIndexOf_eq_none s (fun x hx => by
    by_cases hb : x = '\x7b'
    · exact absurd (hb ▸ hx) h
    · simpa using hb)]

theorem mem_raw_of_entity {x : Char} {line : Str}
    (h : x ∈ (line.drop 1).take (findNodeEndIndex line - 1)) : x ∈ line :=
  List.mem_of_mem_drop (List.mem_of_mem_take h)

/-- A line containing no timer marker, no block-comment opener and no opening
brace always scans with status `ok`: every failure path of the scan goes
through `getTimer` (which needs a `~`), `getBlockComment` (which needs a `[`)
or a braced entity body (which needs a `{`). -/
theorem scanFuel_status_ok (fuel : Nat) : ∀ (buffer s : Str),
    '~' ∉ s → '[' ∉ s → '\x7b' ∉ s → (scanFuel fuel buffer s).2 = ScanStatus.ok := by
  induction fuel with
  | zero =>
    intro buffer s _ _ _
    cases s <;> simp [scanFuel]
  | succ n ih =>
    intro buffer s h1 h2 h3
    cases s with
    | nil => simp [scanFuel]
    | cons c rest =>
      have h1r : '~' ∉ rest := fun hx => h1 (List.mem_cons_of_mem c hx)
      have h2r : '[' ∉ rest := fun hx => h2 (List.mem_cons_of_mem c hx)
      have h3r : '\x7b' ∉ rest := fun hx => h3 (List.mem_cons_of_mem c hx)
      have hdrop : ∀ (k : Nat), '~' ∉ (c :: rest).drop k ∧ '[' ∉ (c :: rest).drop k ∧
          '\x7b' ∉ (c :: rest).drop k := by
        intro k
        exact ⟨fun hx => h1 (List.mem_of_mem_drop hx), fun hx => h2 (List.mem_of_mem_drop hx),
          fun hx => h3 (List.mem_of_mem_drop hx)⟩
      have hrawing : '\x7b' ∉ ((c :: rest).drop 1).take (findNodeEndIndex (c :: rest) - 1) :=
        fun hx => h3 (mem_raw_of_entity hx)
      by_cases ha : c = '@' ∧ peek rest ≠ ' '
      · have hgi : getIngredient (c :: rest) =
            (Out.ok ⟨((c :: rest).drop 1).take (findNodeEndIndex (c :: rest) - 1),
              ⟨false, 1, [], []⟩⟩, findNodeEndIndex (c :: rest)) := by
          unfold getIngredient
          rw [getIngredientFromRawString_no_brace hrawing]
        simp only [scanFuel, if_pos ha, hgi]
        exact ih [] _ (hdrop _).1 (hdrop _).2.1 (hdrop _).2.2
      · by_cases hb : c = '#' ∧ peek rest ≠ ' '
        · have hgc : getCookware (c :: rest) =
              (Out.ok ⟨false, ((c :: rest).drop 1).take (findNodeEndIndex (c :: rest) - 1),
                1, []⟩, findNodeEndIndex (c :: rest)) := by
            unfold getCookware
            rw [getCookwareFromRawString_no_brace hrawing]
          simp only [scanFuel, if_neg ha, if_pos hb, hgc]
          exact ih [] _ (hdrop _).1 (hdrop _).2.1 (hdrop _).2.2
        · have hc : ¬(c = '~' ∧ peek rest ≠ ' ') := by
            intro hx
            exact h1 (hx.1 ▸ List.mem_cons_self c rest)
          have hd : ¬(c = '[' ∧ peek rest = '-') := by
            intro hx
            exact h2 (hx.1 ▸ List.mem_cons_self c rest)
          by_cases he : c = '-' ∧ peek rest = '-'
          · simp [scanFuel, if_neg ha, if_neg hb, if_neg hc, if_neg hd, if_pos he]
          · simp only [scanFuel, if_neg ha, if_neg hb, if_neg hc, if_neg hd, if_neg he]
            exact ih (buffer ++ [c]) rest h1r h2r h3r

/-- A line containing no entity marker, no block-comment opener and no `--`
pair scans to a single Text item holding the whole line (appended to any
pending buffer), with status `ok`, provided the fuel covers the line. -/
theorem scanFuel_plain (fuel : Nat) : ∀ (buffer s : Str), s.length ≤ fuel →
    (∀ x ∈ s, x ≠ '@' ∧ x ≠ '#' ∧ x ≠ '~' ∧ x ≠ '[') → hasDoubleDash s = false →
    scanFuel fuel buffer s = (flushBuffer (buffer ++ s), ScanStatus.ok) := by
  induction fuel with
  | zero =>
    intro buffer s hlen _ _
    have : s = [] := List.eq_nil_of_length_eq_zero (Nat.le_zero.mp hlen)
    subst this
    simp [scanFuel]
  | succ n ih =>
    intro buffer s hlen hmark hdd
    cases s with
    | nil => simp [scanFuel]
    | cons c rest =>
      have hcm := hmark c (List.mem_cons_self c rest)
      have ha : ¬(c = '@' ∧ peek rest ≠ ' ') := fun hx => hcm.1 hx.1
      have hb : ¬(c = '#' ∧ peek rest ≠ ' ') := fun hx => hcm.2.1 hx.1
      have hc : ¬(c = '~' ∧ peek rest ≠ ' ') := fun hx => hcm.2.2.1 hx.1
      have hd : ¬(c = '[' ∧ peek rest = '-') := fun hx => hcm.2.2.2 hx.1
      have he : ¬(c = '-' ∧ peek rest = '-') := by
        rintro ⟨hc1, hc2⟩
        cases rest with
        | nil => simp [peek] at hc2
        | cons d r =>
          have hd' : d = '-' := by simpa [peek] using hc2
          subst hc1 hd'
          simp [hasDoubleDash] at hdd
      simp only [scanFuel, if_neg ha, if_neg hb, if_neg hc, if_neg hd, if_neg he]
      have hlen' : rest.length ≤ n := by
        simp only [List.length_cons] at hlen
        omega
      have hrec := ih (buffer ++ [c]) rest hlen'
        (fun x hx => hmark x (List.mem_cons_of_mem c hx)) (hasDoubleDash_tail c rest hdd)
      rw [hrec]
      congr 1
      simp

/-! ### Helper lemmas about the V2 layer -/

theorem parseRecipeLineV2_plain (cfg : ParseV2Config) (l : Str) (hne : l ≠ [])
    (hmark : ∀ x ∈ l, x ≠ '@' ∧ x ≠ '#' ∧ x ≠ '~' ∧ x ≠ '[') (hdd : hasDoubleDash l = false)
    (htext : ItemType.text ∉ cfg.ignoreTypes) :
    parseRecipeLineV2 (some cfg) l = POut.ok [ItemV2.text l] := by
  unfold parseRecipeLineV2 scanStep
  rw [scanFuel_plain l.length [] l le_rfl hmark hdd]
  simp [flushBuffer, hne, itemToV2, htext]

theorem parseLineV2_state (config : Option ParseV2Config) (st : ParserV2State)
    (recipe : RecipeV2) (l : Str) (hfm : st.inFrontMatter = false)
    (hd : goTrimRightSpaces l ≠ str "---") :
    (parseLineV2 config st recipe l).2 = st := by
  unfold parseLineV2
  rw [if_neg (fun h => hd h.1), if_neg (fun h => hd h.1), if_neg (by simp [hfm])]
  by_cases hcm : (goTrimRightSpaces l).take 2 = str "--"
  · rw [if_pos hcm]
    cases config with
    | none => rfl
    | some cfg =>
      by_cases hig : ItemType.comment ∈ cfg.ignoreTypes
      · simp [hig]
      · simp [hig]
  · rw [if_neg hcm]
    by_cases hmt : (goTrimRightSpaces l).take 2 = str ">>"
    · rw [if_pos hmt]
      rcases hp : parseMetadata (goTrimRightSpaces l) with _ | kv <;> simp [hp]
    · rw [if_neg hmt]
      rcases hp : parseRecipeLineV2 config (goTrimRightSpaces l) with a | _ | _ | _ <;> simp [hp]

theorem parseLinesV2_state (config : Option ParseV2Config) :
    ∀ (ls : List Str) (st : ParserV2State) (recipe : RecipeV2),
      st.inFrontMatter = false → (∀ l ∈ ls, goTrimRightSpaces l ≠ str "---") →
      (parseLinesV2 config st recipe ls).2 = st
  | [], _, _, _, _ => rfl
  | l :: ls, st, recipe, hfm, hall => by
    unfold parseLinesV2
    by_cases hb : goTrimSpace l = []
    · rw [if_pos hb]
      exact parseLinesV2_state config ls st recipe hfm
        (fun x hx => hall x (List.mem_cons_of_mem l hx))
    · rw [if_neg hb]
      have hst : (parseLineV2 config st recipe l).2 = st :=
        parseLineV2_state config st recipe l hfm (hall l (List.mem_cons_self l ls))
      rcases hp : parseLineV2 config st recipe l with ⟨out, st'⟩
      have hst' : st' = st := by
        rw [hp] at hst
        exact hst
      cases out with
      | ok r' =>
        rw [parseLinesV2_state config ls st' r' (by rw [hst']; exact hfm)
          (fun x hx => hall x (List.mem_cons_of_mem l hx))]
        exact hst'
      | err => simpa using hst'
      | crash => simpa using hst'
      | nilDeref => simpa using hst'

theorem parseRecipeLineV2_some_ne_nilDeref (cfg : ParseV2Config) (l : Str) :
    parseRecipeLineV2 (some cfg) l ≠ POut.nilDeref := by
  unfold parseRecipeLineV2
  cases h : (scanStep l).2 <;> simp [h]

theorem parseLineV2_some_fst_ne_nilDeref (cfg : ParseV2Config) (st : ParserV2State)
    (recipe : RecipeV2) (l : Str) :
    (parseLineV2 (some cfg) st recipe l).1 ≠ POut.nilDeref := by
  unfold parseLineV2
  by_cases h1 : goTrimRightSpaces l = str "---" ∧ st.inFrontMatter = false
  · rw [if_pos h1]
    simp
  · rw [if_neg h1]
    by_cases h2 : goTrimRightSpaces l = str "---" ∧ st.inFrontMatter = true
    · rw [if_pos h2]
      rcases hd : decodeFrontMatter st.frontMatter with _ | entries <;> simp [hd]
    · rw [if_neg h2]
      by_cases h3 : st.inFrontMatter = true
      · rw [if_pos h3]
        simp
      · rw [if_neg h3]
        by_cases h4 : (goTrimRightSpaces l).take 2 = str "--"
        · rw [if_pos h4]
          by_cases h5 : ItemType.comment ∈ cfg.ignoreTypes <;> simp [h5]
        · rw [if_neg h4]
          by_cases h6 : (goTrimRightSpaces l).take 2 = str ">>"
          · rw [if_pos h6]
            rcases hm : parseMetadata (goTrimRightSpaces l) with _ | kv <;> simp [hm]
          · rw [if_neg h6]
            rcases hp : parseRecipeLineV2 (some cfg) (goTrimRightSpaces l) with a | _ | _ | _
            · simp [hp]
            · simp [hp]
            · simp [hp]
            · exact absurd hp (parseRecipeLineV2_some_ne_nilDeref cfg (goTrimRightSpaces l))

theorem parseLinesV2_some_fst_ne_nilDeref (cfg : ParseV2Config) :
    ∀ (ls : List Str) (st : ParserV2State) (recipe : RecipeV2),
      (parseLinesV2 (some cfg) st recipe ls).1 ≠ POut.nilDeref
  | [], _, _ => by simp [parseLinesV2]
  | l :: ls, st, recipe => by
    unfold parseLinesV2
    by_cases hb : goTrimSpace l = []
    · rw [if_pos hb]
      exact parseLinesV2_some_fst_ne_nilDeref cfg ls st recipe
    · rw [if_neg hb]
      rcases hp : parseLineV2 (some cfg) st recipe l with ⟨out, st'⟩
      have hout : out ≠ POut.nilDeref := by
        have := parseLineV2_some_fst_ne_nilDeref cfg st recipe l
        rw [hp] at this
        exact this
      cases out with
      | ok r' => exact parseLinesV2_some_fst_ne_nilDeref cfg ls st' r'
      | err => simp
      | crash => simp
      | nilDeref => exact absurd rfl hout

/-! ### Claim theorems -/

/-- Claim C1, counterexample: the claim states that a malformed inline `~`
construct never causes the parse to return an error, naming `~{abc%min}` and
`~{1/x%min}` explicitly; in the code, `getTimerFromRawString` propagates the
non-nil `getFloat` error for a non-empty, non-numeric timer quantity, so both
inputs make the whole parse return an error and no document is produced. -/
theorem c1_counterexample :
    (parseStringV2 (some ⟨[]⟩) initParserV2 (str "~\x7babc%min\x7d")).1 = POut.err ∧
    (parseStringV2 (some ⟨[]⟩) initParserV2 (str "It is ~\x7b1/x%min\x7d done")).1 =
      POut.err := by
  decide

/-- Claim C1, amended: malformed `@` and `#` constructs never cause an error —
any direction line containing no `~`, no `[` and no `{` parses with status ok,
and a non-numeric `@` amount body (`@x{abc%g}`) degrades to raw text — but a
timer whose quantity text is non-empty and non-numeric aborts the parse with
an error. -/
theorem c1_amendment :
    (∀ (cfg : ParseV2Config) (line : Str), '~' ∉ line → '[' ∉ line → '\x7b' ∉ line →
        ∃ step, parseRecipeLineV2 (some cfg) line = POut.ok step) ∧
    parseRecipeLineV2 (some ⟨[]⟩) (str "@x\x7babc%g\x7d") =
      POut.ok [ItemV2.ingredient ⟨str "x", 0, str "g"⟩] := by
  constructor
  · intro cfg line h1 h2 h3
    refine ⟨(scanStep line).1.filterMap (itemToV2 cfg), ?_⟩
    have hst : (scanStep line).2 = ScanStatus.ok :=
      scanFuel_status_ok line.length [] line h1 h2 h3
    simp only [parseRecipeLineV2, hst]
  · decide

/-- Claim C1, witness for the amended universal at a concrete line. -/
theorem c1_amendment_witness :
    ('~' ∉ str "Add @chilli and #pan now") ∧
    (∃ step, parseRecipeLineV2 (some ⟨[]⟩) (str "Add @chilli and #pan now") = POut.ok step) :=
  ⟨by decide, c1_amendment.1 ⟨[]⟩ (str "Add @chilli and #pan now") (by decide) (by decide)
    (by decide)⟩

/-- Claim C2, counterexample: the claim states that `@chilli` resolves to the
raw-text quantity "some"; in the code, `getIngredientFromRawString` with no
braces returns `Amount{Quantity: 1}` — the quantity is the number 1, the raw
text is empty, and no "some" sentinel exists anywhere in the parser. -/
theorem c2_counterexample :
    scanStep (str "@chilli") =
      ([Item.ingredient ⟨str "chilli", ⟨false, 1, [], []⟩⟩], ScanStatus.ok) ∧
    ([] : Str) ≠ str "some" := by
  decide

/-- Claim C2, amended: the kind-specific defaults are — `@chilli` (no braces)
gets quantity Number 1 with empty raw text and empty unit; `@chilli{}` (empty
body) gets quantity Number 0; `#pan` gets quantity Number 1; `~rest` gets
name "rest", duration Number 0 and unit "" (the Timer type has no raw-text
quantity at all). -/
theorem c2_amendment :
    scanStep (str "@chilli") =
      ([Item.ingredient ⟨str "chilli", ⟨false, 1, [], []⟩⟩], ScanStatus.ok) ∧
    scanStep (str "@chilli\x7b\x7d") =
      ([Item.ingredient ⟨str "chilli", ⟨false, 0, [], []⟩⟩], ScanStatus.ok) ∧
    scanStep (str "#pan") =
      ([Item.cookware ⟨false, str "pan", 1, []⟩], ScanStatus.ok) ∧
    scanStep (str "~rest") =
      ([Item.timer ⟨str "rest", 0, []⟩], ScanStatus.ok) := by
  decide

/-- Claim C3, counterexample: the claim states that `01/2` (leading zero on a
multi-digit operand) stays RawText; in the code `strconv.Atoi("01")` succeeds
with value 1, so `@milk{01/2%cup}` resolves to the Number one half
(`IsNumeric` true), not to a raw-text amount. -/
theorem c3_counterexample :
    (scanStep (str "@milk\x7b01/2%cup\x7d")).1 =
      [Item.ingredient ⟨str "milk", ⟨true, Rat.divInt 1 2, str "01/2", str "cup"⟩⟩] ∧
    (scanStep (str "@milk\x7b01/2%cup\x7d")).1 ≠
      [Item.ingredient ⟨str "milk", ⟨false, 0, str "01/2", str "cup"⟩⟩] := by
  decide

/-- Claim C3, amended: a quantity text `a/b` resolves to the Number a÷b
whenever both trimmed operands are accepted by `Atoi` — optionally signed
base-10 integers in the `int64` range, leading zeros included — so `01/2`
resolves to Number 0.5 (with raw text "01/2" kept alongside), not RawText.
The nonzero-denominator hypothesis marks the modelling boundary: for b = 0 Go
produces `+Inf`, which the rational model does not represent. -/
theorem c3_amendment :
    (∀ (t : Str) (i : Nat) (a b : Int),
        goIndexOf (fun c => c = '/') (goTrimSpace t) = some i →
        goAtoi (goTrimSpace ((goTrimSpace t).take i)) = some a →
        goAtoi (goTrimSpace ((goTrimSpace t).drop (i + 1))) = some b →
        b ≠ 0 →
        getFloat t = ⟨true, Rat.divInt a b, false⟩) ∧
    getAmount (str "01/2%cup") 0 = ⟨true, Rat.divInt 1 2, str "01/2", str "cup"⟩ := by
  constructor
  · intro t i a b hidx ha hb _
    unfold getFloat
    have hne : goTrimSpace t ≠ [] := by
      intro h
      rw [h] at hidx
      simp [goIndexOf, goIndexOfAux] at hidx
    rw [if_neg hne, hidx]
    simp only [ha, hb]
  · decide

/-- Claim C3, witness for the amended universal at the fraction `1/2`. -/
theorem c3_amendment_witness :
    goIndexOf (fun c => c = '/') (goTrimSpace (str "1/2")) = some 1 ∧
    getFloat (str "1/2") = ⟨true, Rat.divInt 1 2, false⟩ :=
  ⟨by decide, c3_amendment.1 (str "1/2") 1 1 2 (by decide) (by decide) (by decide)
    (by decide)⟩

/-- Claim C4, counterexample: the claim states that when another marker is
met before the closing brace the construct is abandoned and no entity item is
produced; in the code `findNodeEndIndex` merely stops looking for `}` and
falls back to the first-space boundary, so `Mix @flour#fast{} now` does
produce an Ingredient item (named "flour#fast") from the scan that began at
the `@`. -/
theorem c4_counterexample :
    (scanStep (str "Mix @flour#fast\x7b\x7d now")).1 =
      [Item.text (str "Mix "),
       Item.ingredient ⟨str "flour#fast", ⟨false, 0, [], []⟩⟩,
       Item.text (str " now")] ∧
    (scanStep (str "Mix @flour#fast\x7b\x7d now")).1.any isIngredientItem = true := by
  decide

/-- Claim C4, amended: when another marker character is encountered before a
closing `}`, only the brace search is abandoned; the entity is still produced
with its span ending at the first ASCII space (or the line end), so the span
for `@flour#fast{} now` ends at index 13 (the space) and the scan yields an
Ingredient named "flour#fast" followed by the text " now". -/
theorem c4_amendment :
    scanStep (str "Mix @flour#fast\x7b\x7d now") =
      ([Item.text (str "Mix "),
        Item.ingredient ⟨str "flour#fast", ⟨false, 0, [], []⟩⟩,
        Item.text (str " now")], ScanStatus.ok) ∧
    findNodeEndIndex (str "@flour#fast\x7b\x7d now") = 13 := by
  decide

/-- Claim C5, counterexample: the claim states that a single-word entity name
ends at the first whitespace or punctuation character, so `Add @chilli, stir`
would yield the name "chilli"; in the code the single-word boundary is
`strings.Index(line, " ")` — ASCII space only — so the comma is consumed into
the name and the ingredient is named "chilli,". -/
theorem c5_counterexample :
    (scanStep (str "Add @chilli, stir")).1 =
      [Item.text (str "Add "),
       Item.ingredient ⟨str "chilli,", ⟨false, 1, [], []⟩⟩,
       Item.text (str " stir")] ∧
    str "chilli," ≠ str "chilli" := by
  decide

/-- Claim C5, amended: in single-word form the captured name extends to the
first ASCII space character only — punctuation and non-space unicode
whitespace do not terminate it and are consumed into the name — and the
terminating space is not consumed: for a marker followed by a space-free,
marker-free, brace-free word and then a space, the consumed span is exactly
the word, and the word becomes the ingredient name unchanged. -/
theorem c5_amendment (c : Char) (w rest : Str) (hc : c ≠ ' ')
    (hw : ∀ x ∈ w, x ≠ ' ' ∧ isNodeBreakChar x = false ∧ x ≠ '\x7d' ∧ x ≠ '\x7b')
    (hr : ∀ x ∈ rest, isNodeBreakChar x = false ∧ x ≠ '\x7d') :
    findNodeEndIndex (c :: (w ++ ' ' :: rest)) = w.length + 1 ∧
    getIngredientFromRawString w = Out.ok ⟨w, ⟨false, 1, [], []⟩⟩ := by
  constructor
  · have haux : findNodeEndIndexAux (w ++ ' ' :: rest) 1 = none := by
      apply findNodeEndIndexAux_eq_none
      intro x hx
      rcases List.mem_append.mp hx with h | h
      · exact ⟨(hw x h).2.1, (hw x h).2.2.1⟩
      · rcases List.mem_cons.mp h with h | h
        · subst h
          exact ⟨by decide, by decide⟩
        · exact hr x h
    have hsp : goIndexOf (fun c' => c' = ' ') (c :: (w ++ ' ' :: rest)) =
        some (w.length + 1) := by
      unfold goIndexOf goIndexOfAux
      have hcfalse : decide (c = ' ') = false := by
        simpa using hc
      rw [hcfalse]
      simp only [Bool.false_eq_true, if_false, Nat.zero_add]
      have := @goIndexOfAux_append_hit (fun c' => decide (c' = ' ')) w rest 1 ' '
        (fun x hx => decide_eq_false (hw x hx).1) (by decide)
      rw [this]
      congr 1
      omega
    simp only [findNodeEndIndex, haux, hsp]
  · exact getIngredientFromRawString_no_brace (fun hx => ((hw _ hx).2.2.2) rfl)

/-- Claim C5, witness for the amended statement at `@chilli, stir`. -/
theorem c5_amendment_witness :
    ('@' ≠ ' ') ∧
    (findNodeEndIndex ('@' :: (str "chilli," ++ ' ' :: str "stir")) =
        (str "chilli,").length + 1 ∧
      getIngredientFromRawString (str "chilli,") =
        Out.ok ⟨str "chilli,", ⟨false, 1, [], []⟩⟩) :=
  ⟨by decide, c5_amendment '@' (str "chilli,") (str "stir") (by decide) (by decide)
    (by decide)⟩

/-- Claim C6, counterexample: the claim states that a marker followed by any
unicode whitespace (tab included) produces no entity; in the code the guard
is `peek(line[index+1:]) != ' '` — ASCII space only — so `a @<TAB>b` does
produce an Ingredient item (whose name begins with the tab character). -/
theorem c6_counterexample :
    scanStep (str "a @\tb") =
      ([Item.text (str "a "), Item.ingredient ⟨str "\tb", ⟨false, 1, [], []⟩⟩],
       ScanStatus.ok) ∧
    (scanStep (str "a @\tb")).1.any isIngredientItem = true := by
  decide

/-- Claim C6, amended: only an ASCII space immediately after the marker
suppresses the entity (other whitespace such as a tab does not); with a space
there, the marker is folded into the surrounding plain text, so
`Message @ example` and `It is ~ 5` each parse to a single Text item equal to
the original line with zero entity items. -/
theorem c6_amendment :
    scanStep (str "Message @ example") =
      ([Item.text (str "Message @ example")], ScanStatus.ok) ∧
    scanStep (str "It is ~ 5") = ([Item.text (str "It is ~ 5")], ScanStatus.ok) ∧
    (parseStringV2 (some ⟨[]⟩) initParserV2 (str "Message @ example")).1 =
      POut.ok ⟨[[ItemV2.text (str "Message @ example")]], []⟩ ∧
    (parseStringV2 (some ⟨[]⟩) initParserV2 (str "It is ~ 5")).1 =
      POut.ok ⟨[[ItemV2.text (str "It is ~ 5")]], []⟩ := by
  decide

/-- Claim C7, counterexample: the claim states that a marker-free direction
line becomes one Text item with trailing whitespace preserved as-is; the V2
parser first runs `strings.TrimRight(line, " ")`, so the line "hi " produces
the Text item "hi", with its trailing space removed. -/
theorem c7_counterexample :
    (parseStringV2 (some ⟨[]⟩) initParserV2 (str "hi ")).1 =
      POut.ok ⟨[[ItemV2.text (str "hi")]], []⟩ ∧
    str "hi" ≠ str "hi " := by
  decide

/-- Claim C7, amended: every direction line containing no marker character
(no `@`, `#`, `~`, `[`, and no `--` pair), not classified as metadata, blank,
or front matter, yields exactly one Text item equal to the line after
trailing ASCII spaces are removed (leading and inner whitespace, and trailing
non-space whitespace, are preserved). -/
theorem c7_amendment (cfg : ParseV2Config) (st : ParserV2State) (recipe : RecipeV2)
    (line : Str)
    (hfm : st.inFrontMatter = false)
    (htext : ItemType.text ∉ cfg.ignoreTypes)
    (hmark : ∀ x ∈ line, x ≠ '@' ∧ x ≠ '#' ∧ x ≠ '~' ∧ x ≠ '[')
    (hdd : hasDoubleDash line = false)
    (hmeta : (goTrimRightSpaces line).take 2 ≠ str ">>")
    (hblank : goTrimSpace line ≠ []) :
    parseLineV2 (some cfg) st recipe line =
      (POut.ok ⟨recipe.steps ++ [[ItemV2.text (goTrimRightSpaces line)]], recipe.metadata⟩,
       st) := by
  have hdd' : hasDoubleDash (goTrimRightSpaces line) = false :=
    hasDoubleDash_goTrimRightSpaces line hdd
  have hne' : goTrimRightSpaces line ≠ [] := goTrimRightSpaces_ne_nil hblank
  have hmark' : ∀ x ∈ goTrimRightSpaces line, x ≠ '@' ∧ x ≠ '#' ∧ x ≠ '~' ∧ x ≠ '[' :=
    fun x hx => hmark x (mem_goTrimRightSpaces hx)
  have hdash : goTrimRightSpaces line ≠ str "---" := by
    intro hx
    rw [hx] at hdd'
    revert hdd'
    decide
  have hcmt : (goTrimRightSpaces line).take 2 ≠ str "--" := by
    intro hx
    have := hasDoubleDash_of_take2 _ hx
    rw [this] at hdd'
    cases hdd'
  unfold parseLineV2
  rw [if_neg (fun h => hdash h.1), if_neg (fun h => hdash h.1), if_neg (by simp [hfm]),
    if_neg hcmt, if_neg hmeta,
    parseRecipeLineV2_plain cfg (goTrimRightSpaces line) hne' hmark' hdd' htext]

/-- Claim C7, witness for the amended statement at the line "hello world "
(note the trailing space, removed in the output). -/
theorem c7_amendment_witness :
    ((initParserV2).inFrontMatter = false) ∧
    parseLineV2 (some ⟨[]⟩) initParserV2 ⟨[], []⟩ (str "hello world ") =
      (POut.ok ⟨[[ItemV2.text (goTrimRightSpaces (str "hello world "))]], []⟩,
       initParserV2) :=
  ⟨rfl, c7_amendment ⟨[]⟩ initParserV2 ⟨[], []⟩ (str "hello world ") rfl (by decide)
    (by decide) (by decide) (by decide) (by decide)⟩

/-- Claim C8, counterexample: the claim states that parsing the same string
twice with the same parser instance yields equal documents; the front-matter
flag and buffer persist across calls (they are never reset), so on the input
"---\nx" the first parse succeeds with an empty document while the second
parse — resuming with `inFrontMatter` still true and the buffer "x\n" —
attempts to decode the buffer and fails. -/
theorem c8_counterexample :
    (parseStringV2 (some ⟨[]⟩) initParserV2 (str "---\nx")).1 = POut.ok ⟨[], []⟩ ∧
    (parseStringV2 (some ⟨[]⟩)
        (parseStringV2 (some ⟨[]⟩) initParserV2 (str "---\nx")).2 (str "---\nx")).1 =
      POut.err := by
  decide

/-- Claim C8, amended: the parser state is untouched — and two sequential
parses of the same input with the same instance agree — for every input none
of whose lines trims (on the right) to the front-matter delimiter "---";
inputs containing the delimiter mutate the instance and can change the second
result. -/
theorem c8_amendment (config : Option ParseV2Config) (st : ParserV2State) (s : Str)
    (hfm : st.inFrontMatter = false)
    (hnofm : ∀ l ∈ goScanLines s, goTrimRightSpaces l ≠ str "---") :
    (parseStringV2 config st s).2 = st ∧
    parseStringV2 config (parseStringV2 config st s).2 s = parseStringV2 config st s := by
  have hstate : (parseStringV2 config st s).2 = st := by
    unfold parseStringV2
    by_cases hs : s = []
    · rw [if_pos hs]
    · rw [if_neg hs]
      exact parseLinesV2_state config (goScanLines s) st ⟨[], []⟩ hfm hnofm
  exact ⟨hstate, by rw [hstate]⟩

/-- Claim C8, witness for the amended statement at a delimiter-free input. -/
theorem c8_amendment_witness :
    ((initParserV2).inFrontMatter = false) ∧
    ((parseStringV2 (some ⟨[]⟩) initParserV2 (str "Add flour")).2 = initParserV2 ∧
      parseStringV2 (some ⟨[]⟩)
          (parseStringV2 (some ⟨[]⟩) initParserV2 (str "Add flour")).2 (str "Add flour") =
        parseStringV2 (some ⟨[]⟩) initParserV2 (str "Add flour")) :=
  ⟨rfl, c8_amendment (some ⟨[]⟩) initParserV2 (str "Add flour") rfl (by decide)⟩

/-- Claim C9, counterexample: the claim states that every Ingredient and
Cookware item has a non-empty name; `@{1%g}` produces an Ingredient whose
name is the empty string, and `#{2}` a Cookware whose name is the empty
string (`s.take i` with the `{` at index 0). -/
theorem c9_counterexample :
    (scanStep (str "@\x7b1%g\x7d")).1 =
      [Item.ingredient ⟨[], ⟨true, 1, str "1", str "g"⟩⟩] ∧
    (scanStep (str "#\x7b2\x7d")).1 = [Item.cookware ⟨true, [], 2, str "2"⟩] := by
  decide

/-- Claim C9, amended: entity names are not guaranteed non-empty — the name
is exactly the raw text before the first `{` (the whole raw text when there
are no braces, which may itself be empty for a marker at end of line), so
`@{1%g}`, `#{2}` and a trailing bare `@` all produce items with empty
names. -/
theorem c9_amendment :
    (∀ (s : Str), '\x7b' ∉ s →
        getIngredientFromRawString s = Out.ok ⟨s, ⟨false, 1, [], []⟩⟩) ∧
    (scanStep (str "@\x7b1%g\x7d")).1 =
      [Item.ingredient ⟨[], ⟨true, 1, str "1", str "g"⟩⟩] ∧
    (scanStep (str "a @")).1 =
      [Item.text (str "a "), Item.ingredient ⟨[], ⟨false, 1, [], []⟩⟩] :=
  ⟨fun _ h => getIngredientFromRawString_no_brace h, by decide, by decide⟩

/-- Claim C9, witness for the universal part of the amended statement. -/
theorem c9_amendment_witness :
    ('\x7b' ∉ str "pan") ∧
    getIngredientFromRawString (str "pan") = Out.ok ⟨str "pan", ⟨false, 1, [], []⟩⟩ :=
  ⟨by decide, c9_amendment.1 (str "pan") (by decide)⟩

/-- Claim C10: with a nil configuration (`NewParserV2(nil)`), reaching the
item-exclusion test — on a comment line or on any direction line that emits
an item — dereferences the nil configuration (modelled as the `nilDeref`
outcome), witnessed on the comment line "--c" and the direction line
"Add flour"; with any non-nil configuration, no parse of any input from any
state can produce that nil dereference. -/
theorem c10_nil_config_unsafe_nonnil_safe :
    (parseStringV2 none initParserV2 (str "--c")).1 = POut.nilDeref ∧
    (parseStringV2 none initParserV2 (str "Add flour")).1 = POut.nilDeref ∧
    ∀ (cfg : ParseV2Config) (st : ParserV2State) (s : Str),
      (parseStringV2 (some cfg) st s).1 ≠ POut.nilDeref := by
  refine ⟨by decide, by decide, ?_⟩
  intro cfg st s
  unfold parseStringV2
  by_cases hs : s = []
  · rw [if_pos hs]
    simp
  · rw [if_neg hs]
    exact parseLinesV2_some_fst_ne_nilDeref cfg (goScanLines s) st ⟨[], []⟩

end Cooklang
